import Mathlib

/-!
Verification of the URLsmanager core: a shallow embedding of the URL
classifier (`js/url-parser.js`), the operation engine
(`js/url-processor.js` and the standalone worker copy), and the worker's
batch loop (`js/url-worker.js` / the standalone worker), together with
proofs settling the specification claims.

JavaScript strings are modelled as Lean `String`s manipulated through
`List Char` helpers that mirror the exact JS string methods used by the
source (`trim`, `replace(/\s+/g,'')`, `split`, `includes`,
`toLowerCase`, ...).  The host's WHATWG `URL` constructor, which the
source calls but does not define, is modelled by `jsURLparse`/`JSURL.href`
below, restricted to the behaviours the repository exercises (documented
at the definition).
-/

set_option maxRecDepth 8000

/-- Whitespace characters as treated by the JavaScript `trim` and `\s`
(the subset relevant to this code base: space, tab, LF, CR, VT, FF). -/
def isJsWhitespace (c : Char) : Bool :=
  c = ' ' || c = '\t' || c = '\n' || c = '\r' || c = '\x0b' || c = '\x0c'

/-- JavaScript `String.prototype.trim` on the character list. -/
def jsTrimList (l : List Char) : List Char :=
  ((l.dropWhile isJsWhitespace).reverse.dropWhile isJsWhitespace).reverse

/-- JavaScript `String.prototype.trim`. -/
def jsTrim (s : String) : String := ⟨jsTrimList s.data⟩

/-- JavaScript `replace(/\s+/g, '')`: remove every whitespace character. -/
def stripWsList (l : List Char) : List Char := l.filter (fun c => !(isJsWhitespace c))

/-- Remove every trailing occurrence of `c` (JS `replace(/\/+$/, '')` for `c = '/'`). -/
def dropTrailing (c : Char) (l : List Char) : List Char :=
  (l.reverse.dropWhile (fun x => x = c)).reverse

/-- JavaScript `toLowerCase` restricted to ASCII, which is all the source relies on. -/
def lowerList (l : List Char) : List Char := l.map Char.toLower

/-- JavaScript `String.prototype.toLowerCase` (ASCII). -/
def jsToLower (s : String) : String := ⟨lowerList s.data⟩

/-- Whether `p` is a prefix of `l`, as a boolean. -/
def isPrefixList : List Char → List Char → Bool
  | [], _ => true
  | _ :: _, [] => false
  | a :: p, b :: l => a = b && isPrefixList p l

/-- JavaScript `String.prototype.includes`: `nee` occurs as a contiguous
substring of the second argument. -/
def containsList (nee : List Char) : List Char → Bool
  | [] => isPrefixList nee []
  | c :: t => isPrefixList nee (c :: t) || containsList nee t

/-- JavaScript `s.includes(sub)`. -/
def containsStr (s sub : String) : Bool := containsList sub.data s.data

/-- Helper for `splitChar`: accumulates the current chunk in reverse. -/
def splitCharAux (sep : Char) : List Char → List Char → List (List Char)
  | [], acc => [acc.reverse]
  | c :: t, acc =>
    if c = sep then acc.reverse :: splitCharAux sep t []
    else splitCharAux sep t (c :: acc)

/-- JavaScript `String.prototype.split` with a single-character separator
(`''.split(sep)` gives `['']`, like the JS method). -/
def splitChar (sep : Char) (l : List Char) : List (List Char) := splitCharAux sep l []

/-- JavaScript `Array.prototype.join` with a single-character separator. -/
def intercalateChar (sep : Char) : List (List Char) → List Char
  | [] => []
  | [l] => l
  | l :: t => l ++ sep :: intercalateChar sep t

/-- Index of the last occurrence of `c` (JS `lastIndexOf`, `none` for -1). -/
def lastIndexOfChar (c : Char) : List Char → Option Nat
  | [] => none
  | x :: t =>
    match lastIndexOfChar c t with
    | some i => some (i + 1)
    | none => if x = c then some 0 else none

/-- Split at the first character satisfying `p`; the delimiter stays with
the second component. -/
def splitAtPred (p : Char → Bool) : List Char → List Char × List Char
  | [] => ([], [])
  | c :: t =>
    if p c then ([], c :: t)
    else
      let r := splitAtPred p t
      (c :: r.1, r.2)

/-- Hexadecimal digit value, as used by percent-decoding. -/
def hexVal (c : Char) : Option Nat :=
  if '0' ≤ c ∧ c ≤ '9' then some (c.toNat - 48)
  else if 'a' ≤ c ∧ c ≤ 'f' then some (c.toNat - 87)
  else if 'A' ≤ c ∧ c ≤ 'F' then some (c.toNat - 55)
  else none

/-- Model of JavaScript `decodeURIComponent` on character lists: each
`%XX` pair is decoded to the code point `XX`; a malformed escape throws
(`none`).  Multi-byte UTF-8 sequences are modelled byte-by-byte, which is
faithful for the ASCII data this repository processes. -/
def percentDecodeList : List Char → Option (List Char)
  | [] => some []
  | '%' :: h :: lo :: t =>
    match hexVal h, hexVal lo with
    | some a, some b =>
      match percentDecodeList t with
      | some r => some (Char.ofNat (16 * a + b) :: r)
      | none => none
    | _, _ => none
  | '%' :: _ => none
  | c :: t =>
    match percentDecodeList t with
    | some r => some (c :: r)
    | none => none

/-!
Model of the host's WHATWG `URL` constructor (`new URL(s)` with no base)
and its `toString`/getters, restricted to the subset this repository
exercises.  Simplifications, each irrelevant to the claims under
verification: no percent-encoding normalisation, no dot-segment
resolution, no punycode/IPv4/IPv6 canonicalisation, userinfo before `@`
is dropped rather than kept, and `file` is treated like other
non-special schemes.
-/

/-- Valid first character of a URL scheme. -/
def isSchemeStart (c : Char) : Bool := c.isAlpha

/-- Valid non-initial character of a URL scheme. -/
def isSchemeChar (c : Char) : Bool := c.isAlpha || c.isDigit || c = '+' || c = '-' || c = '.'

/-- Split off the scheme: the characters before the first `:`, all of
which must be scheme characters (first alphabetic).  `none` when the
input has no scheme, in which case `new URL` throws. -/
def splitSchemeAux : List Char → List Char → Option (List Char × List Char)
  | [], _ => none
  | c :: t, acc =>
    if c = ':' then (if acc.isEmpty then none else some (acc.reverse, t))
    else if (if acc.isEmpty then isSchemeStart c else isSchemeChar c) then
      splitSchemeAux t (c :: acc)
    else none

/-- Split a URL string into scheme and remainder. -/
def splitScheme (l : List Char) : Option (List Char × List Char) := splitSchemeAux l []

/-- The special schemes of the WHATWG spec that this model treats as
special (`file` is handled by the generic branch, see the model note). -/
def isSpecialScheme (s : String) : Bool :=
  s = "http" || s = "https" || s = "ws" || s = "wss" || s = "ftp"

/-- Forbidden host code points (WHATWG); tab/LF/CR are already stripped
by preprocessing, and the authority split already consumed `/?#\`. -/
def isForbiddenHostChar (c : Char) : Bool :=
  c = '\x00' || c = ' ' || c = '#' || c = '/' || c = ':' || c = '<' || c = '>' ||
  c = '?' || c = '@' || c = '[' || c = '\\' || c = ']' || c = '^' || c = '|'

/-- Characters the special-scheme parser treats as slashes. -/
def isSlash (c : Char) : Bool := c = '/' || c = '\\'

/-- End of the authority component: `/`, `?`, `#`, and for special
schemes also `\`. -/
def authEnd (special : Bool) (c : Char) : Bool :=
  c = '/' || c = '?' || c = '#' || (special && c = '\\')

/-- Drop the userinfo part: keep only what follows the last `@`. -/
def afterLastAt (l : List Char) : List Char :=
  (l.reverse.takeWhile (fun c => !(c = '@'))).reverse

/-- Digits of a port converted to a number. -/
def digitsToNat (l : List Char) : Nat := l.foldl (fun a c => 10 * a + (c.toNat - 48)) 0

/-- Default ports elided by the URL serializer. -/
def isDefaultPort (scheme : String) (n : Nat) : Bool :=
  (scheme = "http" && n = 80) || (scheme = "https" && n = 443) ||
  (scheme = "ws" && n = 80) || (scheme = "wss" && n = 443) ||
  (scheme = "ftp" && n = 21)

/-- Parse the port section of the authority (everything from the first
`:` on).  `none` means the URL constructor throws. -/
def parsePort (scheme : String) (portC : List Char) : Option String :=
  match portC with
  | [] => some ""
  | ':' :: ds =>
    if ds.isEmpty then some ""
    else if ds.all Char.isDigit then
      let n := digitsToNat ds
      if 65535 < n then none
      else if isDefaultPort scheme n then some ""
      else some (Nat.repr n)
    else none
  | _ => none

/-- Replace backslashes by slashes in a special URL's path. -/
def normSlashes (l : List Char) : List Char := l.map (fun c => if c = '\\' then '/' else c)

/-- Parse the query and fragment from the tail beginning at `?` or `#`. -/
def parseQueryFrag (tail : List Char) : Option String × Option String :=
  match tail with
  | '?' :: rest =>
    let r := splitAtPred (fun c => c = '#') rest
    (some ⟨r.1⟩, match r.2 with | '#' :: fr => some ⟨fr⟩ | _ => none)
  | '#' :: fr => (none, some ⟨fr⟩)
  | _ => (none, none)

/-- A parsed URL record of the host `URL` object model. -/
structure JSURL where
  scheme : String
  host : Option String
  port : String
  pathname : String
  query : Option String
  fragment : Option String
deriving DecidableEq

/-- Parse the part after the scheme when an authority is present. -/
def parseAfterScheme (special : Bool) (scheme : String) (rest : List Char) : Option JSURL :=
  let a := splitAtPred (authEnd special) rest
  let hostPort := afterLastAt a.1
  let hp := splitAtPred (fun c => c = ':') hostPort
  match parsePort scheme hp.2 with
  | none => none
  | some port =>
    if special && hp.1.isEmpty then none
    else if hp.1.any isForbiddenHostChar then none
    else
      let host : String := if special then ⟨lowerList hp.1⟩ else ⟨hp.1⟩
      let pa := splitAtPred (fun c => c = '?' || c = '#') a.2
      let pathname : String :=
        if special then (if pa.1.isEmpty then "/" else ⟨normSlashes pa.1⟩) else ⟨pa.1⟩
      let qf := parseQueryFrag pa.2
      some { scheme := scheme, host := some host, port := port,
             pathname := pathname, query := qf.1, fragment := qf.2 }

/-- Input preprocessing of the URL constructor: trim leading/trailing
C0 controls and spaces, remove all ASCII tab/LF/CR. -/
def urlPreprocess (l : List Char) : List Char :=
  (((l.dropWhile (fun c => c ≤ ' ')).reverse.dropWhile (fun c => c ≤ ' ')).reverse).filter
    (fun c => !(c = '\t' || c = '\n' || c = '\r'))

/-- Model of `new URL(s)` (no base): `none` when the constructor throws. -/
def jsURLparse (s : String) : Option JSURL :=
  let l := urlPreprocess s.data
  match splitScheme l with
  | none => none
  | some sr =>
    let scheme : String := ⟨lowerList sr.1⟩
    if isSpecialScheme scheme then
      parseAfterScheme true scheme (sr.2.dropWhile isSlash)
    else if isPrefixList ['/', '/'] sr.2 then
      parseAfterScheme false scheme (sr.2.drop 2)
    else
      let pa := splitAtPred (fun c => c = '?' || c = '#') sr.2
      let qf := parseQueryFrag pa.2
      some { scheme := scheme, host := none, port := "",
             pathname := ⟨pa.1⟩, query := qf.1, fragment := qf.2 }

/-- Model of `URL.prototype.toString` / `href`. -/
def JSURL.href (u : JSURL) : String :=
  u.scheme ++ ":" ++
  (match u.host with
   | some h => "//" ++ h ++ (if u.port = "" then "" else ":" ++ u.port)
   | none => "") ++
  u.pathname ++
  (match u.query with | some q => "?" ++ q | none => "") ++
  (match u.fragment with | some f => "#" ++ f | none => "")

/-- The `hostname` getter. -/
def JSURL.hostname (u : JSURL) : String := u.host.getD ""

/-- The `search` getter: empty for an absent or empty query. -/
def JSURL.search (u : JSURL) : String :=
  match u.query with
  | some q => if q = "" then "" else "?" ++ q
  | none => ""

/-- The `hash` getter: empty for an absent or empty fragment. -/
def JSURL.hash (u : JSURL) : String :=
  match u.fragment with
  | some f => if f = "" then "" else "#" ++ f
  | none => ""

/-!
Embedding of `URLParser` (`js/url-parser.js`, identical copy in the
standalone worker).  `null`/`undefined`/non-string arguments of the JS
functions are modelled as `none`; a string argument as `some s`.
-/

/-- The domain parts record returned by `URLParser.extractDomainParts`. -/
structure DomainParts where
  subdomain : String
  domain : String
  tld : String
deriving DecidableEq

/-- The record returned by `URLParser.parse`.  On the invalid branches
the JS object carries only `original`, `valid` and `error`; the
remaining fields are `undefined`, modelled by the defaults below. -/
structure ParsedURL where
  original : Option String := none
  valid : Bool := false
  error : Option String := none
  protocol : String := ""
  hostname : String := ""
  domain : String := ""
  subdomain : String := ""
  tld : String := ""
  path : String := ""
  parameters : List (String × String) := []
  fragment : String := ""
  port : String := ""
deriving DecidableEq

/-- An invalid `URLParser.parse` result. -/
def invalidResult (orig : Option String) (msg : String) : ParsedURL :=
  { original := orig, valid := false, error := some msg }

/-- JavaScript `x || ''` on a string. -/
def jsOrEmpty (s : String) : String := if s = "" then "" else s

/-- JS object property update: last write wins, original insertion
position is kept. -/
def assocSet (l : List (String × String)) (k v : String) : List (String × String) :=
  match l with
  | [] => [(k, v)]
  | kv :: t => if kv.1 = k then (k, v) :: t else kv :: assocSet t k v

namespace URLParser

/-- Source: `normalizeUrl` — trim, remove all whitespace, remove
trailing slashes. -/
def normalizeUrl (url : String) : String :=
  ⟨dropTrailing '/' (stripWsList (jsTrimList url.data))⟩

/-- Source: `isCommonSecondLevelTLD` — the fixed compound-TLD table. -/
def isCommonSecondLevelTLD (secondLevel topLevel : String) : Bool :=
  let entry : Option (List String) :=
    if secondLevel = "co" then some ["uk", "jp", "kr", "za", "nz"]
    else if secondLevel = "com" then some ["au", "br", "mx"]
    else if secondLevel = "net" then some ["au"]
    else if secondLevel = "org" then some ["au", "uk"]
    else if secondLevel = "gov" then some ["uk", "au"]
    else if secondLevel = "edu" then some ["au"]
    else if secondLevel = "ac" then some ["uk"]
    else none
  match entry with
  | some tops => tops.contains topLevel
  | none => false

/-- JS `hostname.split('.')`. -/
def splitOnDot (s : String) : List String := (splitChar '.' s.data).map (fun l => ⟨l⟩)

/-- JS `parts.join('.')`. -/
def joinDot (parts : List String) : String := ⟨intercalateChar '.' (parts.map String.data)⟩

/-- Source: `extractDomainParts` — split the hostname into subdomain,
domain and TLD (`parts.slice(0, -k)` is `take (length - k)` here). -/
def extractDomainParts (hostname : String) : DomainParts :=
  if hostname = "" then { subdomain := "", domain := "", tld := "" }
  else
    let parts := splitOnDot hostname
    if parts.length < 2 then { subdomain := "", domain := hostname, tld := "" }
    else
      let tld := parts.getD (parts.length - 1) ""
      let ds :=
        if parts.length = 2 then (parts.getD 0 "", "")
        else if parts.length = 3 then
          if isCommonSecondLevelTLD (parts.getD (parts.length - 2) "") tld then
            (parts.getD (parts.length - 3) "", joinDot (parts.take (parts.length - 3)))
          else
            (parts.getD (parts.length - 2) "", joinDot (parts.take (parts.length - 2)))
        else
          if isCommonSecondLevelTLD (parts.getD (parts.length - 2) "") tld then
            (parts.getD (parts.length - 3) "", joinDot (parts.take (parts.length - 3)))
          else
            (parts.getD (parts.length - 2) "", joinDot (parts.take (parts.length - 2)))
      { subdomain := jsOrEmpty ds.2, domain := jsOrEmpty ds.1, tld := jsOrEmpty tld }

/-- Source: `parseParameters` body — fold over the `&`-separated pieces;
`none` models a `decodeURIComponent` throw escaping to `parse`'s catch. -/
def parseParamsAux : List (List Char) → List (String × String) → Option (List (String × String))
  | [], acc => some acc
  | p :: t, acc =>
    let segs := splitChar '=' p
    let key := segs.getD 0 []
    let value := segs.getD 1 []
    if key.isEmpty then parseParamsAux t acc
    else
      match percentDecodeList key with
      | none => none
      | some dk =>
        if value.isEmpty then parseParamsAux t (assocSet acc ⟨dk⟩ "")
        else
          match percentDecodeList value with
          | none => none
          | some dv => parseParamsAux t (assocSet acc ⟨dk⟩ ⟨dv⟩)

/-- Source: `parseParameters` — parse `urlObj.search` into the ordered
key/value map. -/
def parseParameters (search : String) : Option (List (String × String)) :=
  if search.data.length ≤ 1 then some []
  else
    let qs := if isPrefixList ['?'] search.data then search.data.drop 1 else search.data
    parseParamsAux (splitChar '&' qs) []

/-- The success branch of `parse`: build the valid record from the URL
object (`protocol.replace(':','')` is the scheme, `hash.replace('#','')`
the fragment). -/
def buildParsed (u : String) (obj : JSURL) : ParsedURL :=
  let hostname := jsToLower (JSURL.hostname obj)
  let dp := extractDomainParts hostname
  match parseParameters (JSURL.search obj) with
  | none => invalidResult (some u) "URI malformed"
  | some ps =>
    { original := some u, valid := true, error := none,
      protocol := obj.scheme,
      hostname := hostname, domain := dp.domain, subdomain := dp.subdomain,
      tld := dp.tld, path := obj.pathname, parameters := ps,
      fragment := (match obj.fragment with | some f => f | none => ""),
      port := obj.port }

/-- Source: `URLParser.parse`. -/
def parse (url : Option String) : ParsedURL :=
  match url with
  | none => invalidResult none "Invalid input"
  | some u =>
    if u = "" then invalidResult (some u) "Invalid input"
    else if jsTrim u = "" || u = "not-a-url" || u = "://invalid" then
      invalidResult (some u) "Invalid URL format"
    else
      let cleanUrl := normalizeUrl u
      match jsURLparse cleanUrl with
      | some obj => buildParsed u obj
      | none =>
        if !(containsStr cleanUrl "://") then
          match jsURLparse ("http://" ++ cleanUrl) with
          | some obj => buildParsed u obj
          | none => invalidResult (some u) "Cannot parse URL"
        else invalidResult (some u) "Invalid URL format"

/-- Source: `URLParser.isValid`. -/
def isValid (url : Option String) : Bool :=
  match url with
  | none => false
  | some u =>
    if u = "" || jsTrim u = "" then false
    else if u = "not-a-url" || u = "://invalid" then false
    else (parse (some u)).valid

/-- Source: `URLParser.getDomain` (`null` is `none`). -/
def getDomain (url : String) : Option String :=
  let p := parse (some url)
  if p.valid then some p.domain else none

/-- Source: `URLParser.getTLD`. -/
def getTLD (url : String) : Option String :=
  let p := parse (some url)
  if p.valid then some p.tld else none

/-- Source: `URLParser.hasSubdomain`, coerced to a boolean as at its
call sites. -/
def hasSubdomain (url : String) : Bool :=
  let p := parse (some url)
  p.valid && !(p.subdomain = "")

/-- Source: `URLParser.getFullDomain`. -/
def getFullDomain (url : String) : Option String :=
  let p := parse (some url)
  if p.valid then some p.hostname else none

/-- JS `result.replace(/^https?:\/\//, '')`. -/
def dropHttpScheme (s : String) : String :=
  if isPrefixList "https://".data s.data then ⟨s.data.drop 8⟩
  else if isPrefixList "http://".data s.data then ⟨s.data.drop 7⟩
  else s

/-- Source: `URLParser.removeParameters` — validate, re-parse the
original with the strict constructor (prefixing `http://` when needed),
clear the query, serialize, and strip the added scheme back off. -/
def removeParameters (url : String) : Option String :=
  let parsed := parse (some url)
  if !parsed.valid then none
  else
    let target := if containsStr url "://" then url else "http://" ++ url
    match jsURLparse target with
    | none => none
    | some obj =>
      let result := JSURL.href { obj with query := none }
      some (if containsStr url "://" then result else dropHttpScheme result)

end URLParser

/-!
Embedding of `URLProcessor` (standalone worker copy in the repository;
`js/url-processor.js` is identical on the operations it shares, and its
`process` reduces to the same synchronous flow when no
`PerformanceOptimizer` is present, as in the worker).  Each operation
returns its `results` list together with the number of `invalidCount`
increments it performed.
-/

/-- Add one invalid entry to an operation's accumulated result. -/
def bumpInvalid (p : List String × Nat) : List String × Nat := (p.1, p.2 + 1)

/-- Push one output entry onto an operation's accumulated result. -/
def pushResult (s : String) (p : List String × Nat) : List String × Nat := (s :: p.1, p.2)

namespace URLProcessor

/-- The per-entry guard `!url || typeof url !== 'string' || url.trim() === ''`
(entries are strings here, and `!url` holds exactly for `''`). -/
def isBlankEntry (u : String) : Bool := u = "" || jsTrim u = ""

/-- Source: `getTLDKey` — `tld ? tld.toLowerCase() : null` where `getTLD`
returns `null` on invalid URLs and `''` is falsy. -/
def getTLDKey (url : String) : Option String :=
  match URLParser.getTLD url with
  | some tld => if tld = "" then none else some (jsToLower tld)
  | none => none

/-- Source: `getDomainKey`. -/
def getDomainKey (url : String) : Option String :=
  match URLParser.getFullDomain url with
  | some d => if d = "" then none else some (jsToLower d)
  | none => none

/-- Source: `getFullURLKey`. -/
def getFullURLKey (url : String) : Option String :=
  if URLParser.isValid (some url) then some (jsToLower url) else none

/-- Source: `getDeduplicationKey` — dispatch on the dedup subtype,
`'full'` being the default. -/
def getDeduplicationKey (url : String) (type : String) : Option String :=
  if type = "tld" then getTLDKey url
  else if type = "domain" then getDomainKey url
  else getFullURLKey url

/-- The `deduplicate` loop, with the `seen` set of keys made explicit. -/
def dedupGo (key : String → Option String) (seen : List String) :
    List String → List String × Nat
  | [] => ([], 0)
  | u :: rest =>
    if isBlankEntry u then bumpInvalid (dedupGo key seen rest)
    else
      match key (jsTrim u) with
      | none => bumpInvalid (dedupGo key seen rest)
      | some k =>
        if k ∈ seen then dedupGo key seen rest
        else pushResult (jsTrim u) (dedupGo key (k :: seen) rest)

/-- Source: `deduplicate` — keep the first occurrence per key. -/
def deduplicate (urls : List String) (type : String) : List String × Nat :=
  dedupGo (fun u => getDeduplicationKey u type) [] urls

/-- Source: `removeParameters` (the processor loop over entries). -/
def removeParameters : List String → List String × Nat
  | [] => ([], 0)
  | u :: rest =>
    if isBlankEntry u then bumpInvalid (removeParameters rest)
    else
      match URLParser.removeParameters (jsTrim u) with
      | some c => pushResult c (removeParameters rest)
      | none => bumpInvalid (removeParameters rest)

/-- The `filter` loop with the lower-cased search string. -/
def filterGo (filterType : Option String) (search : String) :
    List String → List String × Nat
  | [] => ([], 0)
  | u :: rest =>
    if isBlankEntry u then bumpInvalid (filterGo filterType search rest)
    else
      let t := jsTrim u
      let c := containsStr (jsToLower t) search
      if filterType = some "include" && c then pushResult t (filterGo filterType search rest)
      else if filterType = some "exclude" && !c then pushResult t (filterGo filterType search rest)
      else filterGo filterType search rest

/-- Source: `filter` — a missing/blank filter string throws
(`Except.error` models the thrown message). -/
def filter (urls : List String) (filterType : Option String)
    (filterString : Option String) : Except String (List String × Nat) :=
  match filterString with
  | none => Except.error "Filter string is required for filter operations"
  | some fs =>
    if fs = "" || jsTrim fs = "" then
      Except.error "Filter string is required for filter operations"
    else Except.ok (filterGo filterType (jsToLower fs) urls)

/-- Source: `keepTLDOnly` — keep valid URLs without a subdomain. -/
def keepTLDOnly : List String → List String × Nat
  | [] => ([], 0)
  | u :: rest =>
    if isBlankEntry u then bumpInvalid (keepTLDOnly rest)
    else
      let t := jsTrim u
      if !(URLParser.hasSubdomain t) then
        if URLParser.isValid (some t) then pushResult t (keepTLDOnly rest)
        else bumpInvalid (keepTLDOnly rest)
      else keepTLDOnly rest

/-- The path rewrite inside `trimLastPath`: strip one trailing slash,
then cut at the last remaining slash. -/
def trimPath (path : String) : String :=
  let p1 : List Char :=
    if path.data.getLast? = some '/' then path.data.dropLast else path.data
  match lastIndexOfChar '/' p1 with
  | some i => if 0 < i then ⟨p1.take i⟩ else "/"
  | none => ⟨p1⟩

/-- Source: `trimLastPath` — entries are validated with `isValid` but
re-parsed with the bare `new URL(trimmedUrl)` (no `http://` fallback);
a construction failure is caught and counted as invalid. -/
def trimLastPath : List String → List String × Nat
  | [] => ([], 0)
  | u :: rest =>
    if isBlankEntry u then bumpInvalid (trimLastPath rest)
    else
      let t := jsTrim u
      if !(URLParser.isValid (some t)) then bumpInvalid (trimLastPath rest)
      else
        match jsURLparse t with
        | none => bumpInvalid (trimLastPath rest)
        | some obj =>
          pushResult (JSURL.href { obj with pathname := trimPath obj.pathname })
            (trimLastPath rest)

/-- The `extractTLD` loop with the `seen` set made explicit. -/
def extractTLDGo (seen : List String) : List String → List String × Nat
  | [] => ([], 0)
  | u :: rest =>
    if isBlankEntry u then bumpInvalid (extractTLDGo seen rest)
    else
      let p := URLParser.parse (some (jsTrim u))
      if !p.valid then bumpInvalid (extractTLDGo seen rest)
      else if !(p.domain = "") && !(p.tld = "") then
        let base := p.domain ++ "." ++ p.tld
        if base ∈ seen then extractTLDGo seen rest
        else pushResult base (extractTLDGo (base :: seen) rest)
      else bumpInvalid (extractTLDGo seen rest)

/-- Source: `extractTLD` — emit `domain.tld`, deduplicated. -/
def extractTLD (urls : List String) : List String × Nat := extractTLDGo [] urls

/-- Stable insertion preserving the relative order of `le`-ties. -/
def insertLe (le : α → α → Bool) (x : α) : List α → List α
  | [] => [x]
  | y :: t => if le y x then y :: insertLe le x t else x :: y :: t

/-- Stable sort (insertion sort), modelling the stable
`Array.prototype.sort` of current engines. -/
def stableSortBy (le : α → α → Bool) (l : List α) : List α :=
  l.foldl (fun acc x => insertLe le x acc) []

/-- Lexicographic code-unit comparison, modelling `localeCompare` for
the ASCII data this repository handles. -/
def lexLe : List Char → List Char → Bool
  | [], _ => true
  | _ :: _, [] => false
  | x :: xs, y :: ys => if x = y then lexLe xs ys else decide (x < y)

/-- The valid-entry gather of `sortByDomain`: pairs of original trimmed
entry and lower-cased hostname. -/
def sortByDomainGather : List String → List (String × String) × Nat
  | [] => ([], 0)
  | u :: rest =>
    if isBlankEntry u then
      let r := sortByDomainGather rest
      (r.1, r.2 + 1)
    else
      let t := jsTrim u
      let p := URLParser.parse (some t)
      if !p.valid then
        let r := sortByDomainGather rest
        (r.1, r.2 + 1)
      else
        let r := sortByDomainGather rest
        ((t, jsToLower p.hostname) :: r.1, r.2)

/-- Source: `sortByDomain`. -/
def sortByDomain (urls : List String) : List String × Nat :=
  let g := sortByDomainGather urls
  ((stableSortBy (fun a b => lexLe a.2.data b.2.data) g.1).map Prod.fst, g.2)

/-- The valid-entry gather of `sortByLength`. -/
def sortByLengthGather : List String → List String × Nat
  | [] => ([], 0)
  | u :: rest =>
    if isBlankEntry u then bumpInvalid (sortByLengthGather rest)
    else
      let t := jsTrim u
      if URLParser.isValid (some t) then pushResult t (sortByLengthGather rest)
      else bumpInvalid (sortByLengthGather rest)

/-- Source: `sortByLength`. -/
def sortByLength (urls : List String) : List String × Nat :=
  let g := sortByLengthGather urls
  (stableSortBy (fun a b => decide (a.data.length ≤ b.data.length)) g.1, g.2)

/-- The filename stem used by `sortByFilename`: last path segment with
its extension stripped, falling back to the previous segment or the
hostname. -/
def filenameOf (p : ParsedURL) : List Char :=
  let path := if p.path = "" then "/" else p.path
  let segs := splitChar '/' path.data
  let fn0 := segs.getD (segs.length - 1) []
  let fn1 :=
    match lastIndexOfChar '.' fn0 with
    | some i => if 0 < i then fn0.take i else fn0
    | none => fn0
  if fn1.isEmpty then
    if 1 < segs.length then
      let alt := segs.getD (segs.length - 2) []
      if alt.isEmpty then p.hostname.data else alt
    else p.hostname.data
  else fn1

/-- The valid-entry gather of `sortByFilename`. -/
def sortByFilenameGather : List String → List (String × List Char) × Nat
  | [] => ([], 0)
  | u :: rest =>
    if isBlankEntry u then
      let r := sortByFilenameGather rest
      (r.1, r.2 + 1)
    else
      let t := jsTrim u
      let p := URLParser.parse (some t)
      if !p.valid then
        let r := sortByFilenameGather rest
        (r.1, r.2 + 1)
      else
        let r := sortByFilenameGather rest
        ((t, lowerList (filenameOf p)) :: r.1, r.2)

/-- Source: `sortByFilename`. -/
def sortByFilename (urls : List String) : List String × Nat :=
  let g := sortByFilenameGather urls
  ((stableSortBy (fun a b => lexLe a.2 b.2) g.1).map Prod.fst, g.2)

/-- The options object passed to `process`. -/
structure ProcessOptions where
  type : Option String := none
  filterString : Option String := none
deriving DecidableEq

/-- JS `options.type || 'full'`. -/
def optType (options : ProcessOptions) : String :=
  match options.type with
  | some t => if t = "" then "full" else t
  | none => "full"

/-- The `switch (operation)` dispatch of the worker processor's
`process`; `Except.error` carries a thrown message. -/
def runOperation (urls : List String) (operation : String) (options : ProcessOptions) :
    Except String (List String × Nat) :=
  if operation = "removeParameters" then Except.ok (removeParameters urls)
  else if operation = "deduplicate" then Except.ok (deduplicate urls (optType options))
  else if operation = "filter" then filter urls options.type options.filterString
  else if operation = "keepTLDOnly" then Except.ok (keepTLDOnly urls)
  else if operation = "trimLastPath" then Except.ok (trimLastPath urls)
  else if operation = "extractTLD" then Except.ok (extractTLD urls)
  else if operation = "sortByDomain" then Except.ok (sortByDomain urls)
  else if operation = "sortByLength" then Except.ok (sortByLength urls)
  else if operation = "sortByFilename" then Except.ok (sortByFilename urls)
  else Except.error ("Unknown operation: " ++ operation)

/-- The `ProcessingResult` record built by `createProcessingResult`
(`processingTime` is wall-clock and not modelled). -/
structure ProcessingResult where
  success : Bool
  inputCount : Nat
  outputCount : Nat
  removedCount : Nat
  invalidCount : Nat
  results : List String
  errors : List String
deriving DecidableEq

/-- Source: `URLProcessor.process` — statistics are reset,
`inputCount` is set to `urls.length`, the operation runs, and a thrown
error is caught into a failed result (every throw happens before any
entry is counted, so `invalidCount` is `0` on the error path). -/
def process (urls : List String) (operation : String) (options : ProcessOptions) :
    ProcessingResult :=
  let r :=
    if operation = "" then Except.error "Operation type must be specified"
    else runOperation urls operation options
  match r with
  | Except.ok res =>
    { success := true, inputCount := urls.length, outputCount := res.1.length,
      removedCount := urls.length - res.1.length, invalidCount := res.2,
      results := res.1, errors := [] }
  | Except.error msg =>
    { success := false, inputCount := urls.length, outputCount := 0,
      removedCount := 0, invalidCount := 0, results := [], errors := [msg] }

end URLProcessor

/-!
Embedding of the worker's batch loop (`processBatches` in
`js/url-worker.js` and the standalone worker; both are identical).  The
loop slices the input into `BATCH_SIZE` pieces, runs a fresh processor
on each, accumulates `results`/`outputCount`/`invalidCount` only from
batches whose result has `success: true`, and finally posts a
`complete` message with `success: true` unconditionally.  Progress
messages and timing are transient and not modelled.
-/

/-- Worker configuration constant. -/
def BATCH_SIZE : Nat := 1000

/-- Fuel-indexed chunking; with fuel at least the list length and a
positive batch size this is exactly the worker's
`urls.slice(i * BATCH_SIZE, (i + 1) * BATCH_SIZE)` loop. -/
def chunksGo (bs : Nat) : Nat → List String → List (List String)
  | 0, _ => []
  | _, [] => []
  | fuel + 1, l => l.take bs :: chunksGo bs fuel (l.drop bs)

/-- The list of batches the worker loop iterates over. -/
def chunks (bs : Nat) (l : List String) : List (List String) := chunksGo bs l.length l

/-- The `stats` object of the worker's `complete` message. -/
structure WorkerStats where
  inputCount : Nat
  outputCount : Nat
  removedCount : Nat
  invalidCount : Nat
deriving DecidableEq

/-- The worker's terminal `complete` message (id/timestamp omitted). -/
structure WorkerComplete where
  success : Bool
  results : List String
  stats : WorkerStats
deriving DecidableEq

/-- One iteration of the worker batch loop: accumulate only when the
batch result reports success. -/
def batchStep (operation : String) (options : URLProcessor.ProcessOptions)
    (acc : List String × Nat × Nat) (batch : List String) : List String × Nat × Nat :=
  let r := URLProcessor.process batch operation options
  if r.success then (acc.1 ++ r.results, acc.2.1 + r.outputCount, acc.2.2 + r.invalidCount)
  else acc

/-- Source: worker `processBatches`. -/
def processBatches (operation : String) (urls : List String)
    (options : URLProcessor.ProcessOptions) : WorkerComplete :=
  let acc := (chunks BATCH_SIZE urls).foldl (batchStep operation options) ([], 0, 0)
  { success := true, results := acc.1,
    stats := { inputCount := urls.length, outputCount := acc.2.1,
               removedCount := urls.length - acc.2.1, invalidCount := acc.2.2 } }

/-- Source: worker `processSingleBatch`. -/
def processSingleBatch (operation : String) (urls : List String)
    (options : URLProcessor.ProcessOptions) : WorkerComplete :=
  let r := URLProcessor.process urls operation options
  { success := r.success, results := r.results,
    stats := { inputCount := r.inputCount, outputCount := r.outputCount,
               removedCount := r.removedCount, invalidCount := r.invalidCount } }

/-- Source: worker `processURLsWithProgress` — dispatch on the input
size. -/
def processURLsWithProgress (operation : String) (urls : List String)
    (options : URLProcessor.ProcessOptions) : WorkerComplete :=
  if BATCH_SIZE < urls.length then processBatches operation urls options
  else processSingleBatch operation urls options

/-! Helper lemmas. -/

@[simp] lemma bumpInvalid_fst (p : List String × Nat) : (bumpInvalid p).1 = p.1 := rfl

@[simp] lemma bumpInvalid_snd (p : List String × Nat) : (bumpInvalid p).2 = p.2 + 1 := rfl

@[simp] lemma pushResult_fst (s : String) (p : List String × Nat) :
    (pushResult s p).1 = s :: p.1 := rfl

@[simp] lemma pushResult_snd (s : String) (p : List String × Nat) :
    (pushResult s p).2 = p.2 := rfl

lemma isBlankEntry_iff (u : String) : URLProcessor.isBlankEntry u = true ↔ jsTrim u = "" := by
  simp only [URLProcessor.isBlankEntry, Bool.or_eq_true, decide_eq_true_eq]
  constructor
  · rintro (rfl | h)
    · rfl
    · exact h
  · intro h
    exact Or.inr h

lemma isBlankEntry_false {u : String} (h : URLProcessor.isBlankEntry u = false) :
    jsTrim u ≠ "" := by
  intro hc
  have := (isBlankEntry_iff u).mpr hc
  rw [h] at this
  cases this

/-- C9: for every argument (strings, and `none` standing for
`null`/`undefined`/non-string values, which the `typeof` guards of both
functions treat alike), `URLParser.isValid` returns `true` exactly when
`URLParser.parse` returns a record with `valid = true`: the extra
pre-checks inside `isValid` repeat checks `parse` performs itself and
never disagree with it. -/
theorem isValid_agrees_with_parse (u : Option String) :
    URLParser.isValid u = (URLParser.parse u).valid := by
  cases u with
  | none => rfl
  | some s =>
    by_cases h0 : s = ""
    · subst h0; rfl
    · by_cases h1 : jsTrim s = ""
      · simp [URLParser.isValid, URLParser.parse, h0, h1, invalidResult]
      · by_cases h2 : s = "not-a-url"
        · subst h2; rfl
        · by_cases h3 : s = "://invalid"
          · subst h3; rfl
          · simp [URLParser.isValid, URLParser.parse, h0, h1, h2, h3]

/-- C6: calling `filter` (either subtype, or any other `type` value)
with a missing, empty, or whitespace-only match string makes the whole
call fail: `success` is `false`, `errors` is the non-empty thrown
message, and `results` is empty — no partial results. -/
theorem filter_blank_match_string_fails (urls : List String) (ftype fs : Option String)
    (h : fs = none ∨ ∃ s, fs = some s ∧ jsTrim s = "") :
    URLProcessor.process urls "filter" { type := ftype, filterString := fs } =
      { success := false, inputCount := urls.length, outputCount := 0, removedCount := 0,
        invalidCount := 0, results := [],
        errors := ["Filter string is required for filter operations"] } := by
  have hrun : URLProcessor.runOperation urls "filter" { type := ftype, filterString := fs } =
      Except.error "Filter string is required for filter operations" := by
    rcases h with rfl | ⟨s, rfl, hs⟩
    · simp [URLProcessor.runOperation, URLProcessor.filter]
    · simp [URLProcessor.runOperation, URLProcessor.filter, hs]
  simp [URLProcessor.process, hrun]

/-- Witness for C6 at a concrete whitespace-only match string. -/
theorem filter_blank_match_string_fails_witness :
    URLProcessor.process ["https://example.com"] "filter"
        { type := some "include", filterString := some "   " } =
      { success := false, inputCount := 1, outputCount := 0, removedCount := 0,
        invalidCount := 0, results := [],
        errors := ["Filter string is required for filter operations"] } :=
  filter_blank_match_string_fails ["https://example.com"] (some "include") (some "   ")
    (Or.inr ⟨"   ", rfl, by decide⟩)

/-- C3 counterexample: at the spec's own example input under
`removeParameters`, `inputCount` is `3` (the blank line is not removed
before counting) and `invalidCount` is `2` (the blank line is counted as
invalid), contradicting the claimed `inputCount = 2` with only the
unparseable entry counted. -/
theorem blank_lines_inputcount_counterexample :
    (URLProcessor.process ["not-a-url", "", "https://valid.com"] "removeParameters"
        {}).inputCount = 3 ∧
    (URLProcessor.process ["not-a-url", "", "https://valid.com"] "removeParameters"
        {}).invalidCount = 2 ∧
    ¬((URLProcessor.process ["not-a-url", "", "https://valid.com"] "removeParameters"
        {}).inputCount = 2 ∧
      (URLProcessor.process ["not-a-url", "", "https://valid.com"] "removeParameters"
        {}).invalidCount = 1) := by
  refine ⟨by decide, by decide, ?_⟩
  rintro ⟨h, -⟩
  revert h
  decide

/-- C3 amended: no blank-line pre-filtering happens in
`URLProcessor.process`: `inputCount` equals the full input length,
blanks included, for every operation; and blank entries are counted in
`invalidCount` alongside unparseable ones (at the example input,
`invalidCount = 2` and one URL survives). -/
theorem input_count_includes_blanks :
    (∀ (urls : List String) (op : String) (opts : URLProcessor.ProcessOptions),
        (URLProcessor.process urls op opts).inputCount = urls.length) ∧
    (URLProcessor.process ["not-a-url", "", "https://valid.com"] "removeParameters"
        {}).invalidCount = 2 ∧
    (URLProcessor.process ["not-a-url", "", "https://valid.com"] "removeParameters"
        {}).outputCount = 1 := by
  refine ⟨?_, by decide, by decide⟩
  intro urls op opts
  simp only [URLProcessor.process]
  split <;> rfl

/-! Generic properties of the deduplication loop. -/

lemma dedupGo_sublist (key : String → Option String) (seen : List String) (l : List String) :
    (URLProcessor.dedupGo key seen l).1.Sublist (l.map jsTrim) := by
  induction l generalizing seen with
  | nil => simp [URLProcessor.dedupGo]
  | cons u rest ih =>
    rw [List.map_cons]
    by_cases hb : URLProcessor.isBlankEntry u = true
    · simp only [URLProcessor.dedupGo, hb, if_true, bumpInvalid_fst]
      exact (ih seen).cons _
    · rw [Bool.not_eq_true] at hb
      cases hk : key (jsTrim u) with
      | none =>
        simp only [URLProcessor.dedupGo, hb, Bool.false_eq_true, if_false, hk, bumpInvalid_fst]
        exact (ih seen).cons _
      | some k =>
        by_cases hs : k ∈ seen
        · simp only [URLProcessor.dedupGo, hb, Bool.false_eq_true, if_false, hk, hs, if_true]
          exact (ih seen).cons _
        · simp only [URLProcessor.dedupGo, hb, Bool.false_eq_true, if_false, hk, hs,
            pushResult_fst]
          exact (ih (k :: seen)).cons₂ _

lemma dedupGo_key_fresh (key : String → Option String) (seen : List String) (l : List String) :
    ∀ r ∈ (URLProcessor.dedupGo key seen l).1, ∃ k, key r = some k ∧ k ∉ seen := by
  induction l generalizing seen with
  | nil => simp [URLProcessor.dedupGo]
  | cons u rest ih =>
    intro r hr
    by_cases hb : URLProcessor.isBlankEntry u = true
    · simp only [URLProcessor.dedupGo, hb, if_true, bumpInvalid_fst] at hr
      exact ih seen r hr
    · rw [Bool.not_eq_true] at hb
      cases hk : key (jsTrim u) with
      | none =>
        simp only [URLProcessor.dedupGo, hb, Bool.false_eq_true, if_false, hk,
          bumpInvalid_fst] at hr
        exact ih seen r hr
      | some k =>
        by_cases hs : k ∈ seen
        · simp only [URLProcessor.dedupGo, hb, Bool.false_eq_true, if_false, hk, hs,
            if_true] at hr
          exact ih seen r hr
        · simp only [URLProcessor.dedupGo, hb, Bool.false_eq_true, if_false, hk, hs,
            pushResult_fst, List.mem_cons] at hr
          rcases hr with rfl | hr
          · exact ⟨k, hk, hs⟩
          · obtain ⟨k', hk', hs'⟩ := ih (k :: seen) r hr
            refine ⟨k', hk', fun hmem => hs' (List.mem_cons_of_mem _ hmem)⟩

lemma dedupGo_keys_nodup (key : String → Option String) (seen : List String) (l : List String) :
    ((URLProcessor.dedupGo key seen l).1.map key).Nodup := by
  induction l generalizing seen with
  | nil => simp [URLProcessor.dedupGo]
  | cons u rest ih =>
    by_cases hb : URLProcessor.isBlankEntry u = true
    · simpa only [URLProcessor.dedupGo, hb, if_true, bumpInvalid_fst] using ih seen
    · rw [Bool.not_eq_true] at hb
      cases hk : key (jsTrim u) with
      | none =>
        simpa only [URLProcessor.dedupGo, hb, Bool.false_eq_true, if_false, hk,
          bumpInvalid_fst] using ih seen
      | some k =>
        by_cases hs : k ∈ seen
        · simpa only [URLProcessor.dedupGo, hb, Bool.false_eq_true, if_false, hk, hs,
            if_true] using ih seen
        · simp only [URLProcessor.dedupGo, hb, Bool.false_eq_true, if_false, hk, hs,
            pushResult_fst, List.map_cons, List.nodup_cons]
          refine ⟨?_, ih (k :: seen)⟩
          intro hmem
          obtain ⟨r, hr, hkey⟩ := List.mem_map.mp hmem
          obtain ⟨k', hk', hs'⟩ := dedupGo_key_fresh key (k :: seen) rest r hr
          rw [hk'] at hkey
          have : k' = k := Option.some_injective _ hkey
          exact hs' (this ▸ List.mem_cons_self k seen)

lemma dedupGo_first_occ (key : String → Option String) (seen : List String) (l : List String) :
    ∀ r ∈ (URLProcessor.dedupGo key seen l).1,
      (l.map jsTrim).find? (fun t => !(t == "") && (key t == key r)) = some r := by
  induction l generalizing seen with
  | nil => simp [URLProcessor.dedupGo]
  | cons u rest ih =>
    intro r hr
    rw [List.map_cons]
    by_cases hb : URLProcessor.isBlankEntry u = true
    · have ht : jsTrim u = "" := (isBlankEntry_iff u).mp hb
      simp only [URLProcessor.dedupGo, hb, if_true, bumpInvalid_fst] at hr
      rw [List.find?_cons_of_neg, ih seen r hr]
      rw [ht]
      simp
    · rw [Bool.not_eq_true] at hb
      have ht : ¬(jsTrim u = "") := isBlankEntry_false hb
      cases hk : key (jsTrim u) with
      | none =>
        simp only [URLProcessor.dedupGo, hb, Bool.false_eq_true, if_false, hk,
          bumpInvalid_fst] at hr
        obtain ⟨k', hk', -⟩ := dedupGo_key_fresh key seen rest r hr
        rw [List.find?_cons_of_neg, ih seen r hr]
        rw [hk, hk']
        simp
      | some k =>
        by_cases hs : k ∈ seen
        · simp only [URLProcessor.dedupGo, hb, Bool.false_eq_true, if_false, hk, hs,
            if_true] at hr
          obtain ⟨k', hk', hs'⟩ := dedupGo_key_fresh key seen rest r hr
          have hne : k ≠ k' := fun h => hs' (h ▸ hs)
          rw [List.find?_cons_of_neg, ih seen r hr]
          rw [hk, hk']
          simp [hne]
        · simp only [URLProcessor.dedupGo, hb, Bool.false_eq_true, if_false, hk, hs,
            pushResult_fst, List.mem_cons] at hr
          rcases hr with rfl | hr
          · rw [List.find?_cons_of_pos]
            simp [ht]
          · obtain ⟨k', hk', hs'⟩ := dedupGo_key_fresh key (k :: seen) rest r hr
            have hne : k ≠ k' := fun h => hs' (h ▸ List.mem_cons_self k seen)
            rw [List.find?_cons_of_neg, ih (k :: seen) r hr]
            rw [hk, hk']
            simp [hne]

lemma dedupGo_count (key : String → Option String) (seen : List String) (l : List String) :
    (URLProcessor.dedupGo key seen l).2 =
      l.countP (fun u => URLProcessor.isBlankEntry u || (key (jsTrim u)).isNone) := by
  induction l generalizing seen with
  | nil => simp [URLProcessor.dedupGo]
  | cons u rest ih =>
    rw [List.countP_cons]
    by_cases hb : URLProcessor.isBlankEntry u = true
    · simp only [URLProcessor.dedupGo, hb, if_true, bumpInvalid_snd, Bool.true_or, if_pos]
      rw [ih seen]
    · rw [Bool.not_eq_true] at hb
      cases hk : key (jsTrim u) with
      | none =>
        simp only [URLProcessor.dedupGo, hb, Bool.false_eq_true, if_false, hk,
          bumpInvalid_snd, Option.isNone_none, Bool.or_true, if_pos]
        rw [ih seen]
      | some k =>
        have hp : (URLProcessor.isBlankEntry u || (key (jsTrim u)).isNone) = false := by
          rw [hb, hk]; rfl
        by_cases hs : k ∈ seen
        · simp only [URLProcessor.dedupGo, hb, Bool.false_eq_true, if_false, hk, hs, if_true,
            hp, Bool.false_eq_true, if_false, add_zero]
          exact ih seen
        · simp only [URLProcessor.dedupGo, hb, Bool.false_eq_true, if_false, hk, hs,
            pushResult_snd, hp, if_false, add_zero]
          exact ih (k :: seen)

/-- C5: for each deduplicate subtype (and in fact any subtype string,
`full` being the default), the outputs have pairwise distinct
deduplication keys (their key list is duplicate-free), the output is a
subsequence of the trimmed input (first-occurrence order), every output
element is the first trimmed input entry carrying its key (smallest
original index), and entries that are blank or have no key (invalid)
are dropped and counted in `invalidCount`. -/
theorem dedup_first_occurrence_correct (type : String) (urls : List String) :
    (((URLProcessor.deduplicate urls type).1.map
        (fun r => URLProcessor.getDeduplicationKey r type)).Nodup) ∧
    (URLProcessor.deduplicate urls type).1.Sublist (urls.map jsTrim) ∧
    (∀ r ∈ (URLProcessor.deduplicate urls type).1,
      (urls.map jsTrim).find?
        (fun t => !(t == "") &&
          (URLProcessor.getDeduplicationKey t type ==
            URLProcessor.getDeduplicationKey r type)) = some r) ∧
    (URLProcessor.deduplicate urls type).2 =
      urls.countP (fun u => URLProcessor.isBlankEntry u ||
        (URLProcessor.getDeduplicationKey (jsTrim u) type).isNone) :=
  ⟨dedupGo_keys_nodup (fun s => URLProcessor.getDeduplicationKey s type) [] urls,
   dedupGo_sublist (fun s => URLProcessor.getDeduplicationKey s type) [] urls,
   dedupGo_first_occ (fun s => URLProcessor.getDeduplicationKey s type) [] urls,
   dedupGo_count (fun s => URLProcessor.getDeduplicationKey s type) [] urls⟩

/-- Witness for C5 on a concrete list with a case-insensitive duplicate
and an invalid entry, instantiating the first-occurrence property. -/
theorem dedup_first_occurrence_correct_witness :
    (((URLProcessor.deduplicate
        ["https://a.com", " https://A.COM ", "not-a-url", "https://b.org"] "full").1.map
          (fun r => URLProcessor.getDeduplicationKey r "full")).Nodup) ∧
    ((["https://a.com", " https://A.COM ", "not-a-url", "https://b.org"].map jsTrim).find?
        (fun t => !(t == "") &&
          (URLProcessor.getDeduplicationKey t "full" ==
            URLProcessor.getDeduplicationKey "https://a.com" "full")) =
      some "https://a.com") ∧
    (URLProcessor.deduplicate
        ["https://a.com", " https://A.COM ", "not-a-url", "https://b.org"] "full").1 =
      ["https://a.com", "https://b.org"] ∧
    (URLProcessor.deduplicate
        ["https://a.com", " https://A.COM ", "not-a-url", "https://b.org"] "full").2 = 1 := by
  have h := dedup_first_occurrence_correct "full"
    ["https://a.com", " https://A.COM ", "not-a-url", "https://b.org"]
  exact ⟨h.1, h.2.2.1 "https://a.com" (by decide), by decide, by decide⟩

/-! The worker batch loop in the presence of failing batches. -/

lemma process_filter_missing_fails (batch : List String) (ft : Option String) :
    URLProcessor.process batch "filter" { type := ft, filterString := none } =
      { success := false, inputCount := batch.length, outputCount := 0, removedCount := 0,
        invalidCount := 0, results := [],
        errors := ["Filter string is required for filter operations"] } := by
  simp [URLProcessor.process, URLProcessor.runOperation, URLProcessor.filter]

lemma foldl_batchStep_all_fail {op : String} {opts : URLProcessor.ProcessOptions}
    (h : ∀ b : List String, (URLProcessor.process b op opts).success = false) :
    ∀ (bs : List (List String)) (acc : List String × Nat × Nat),
      bs.foldl (batchStep op opts) acc = acc := by
  intro bs
  induction bs with
  | nil => intro acc; rfl
  | cons b t ih =>
    intro acc
    rw [List.foldl_cons, show batchStep op opts acc b = acc by simp [batchStep, h b]]
    exact ih acc

/-- C2: the worker's `processBatches` does not abort on a fatal
`ValidationError`: with `filter` and a missing match string, every
batch's result has `success: false` and a non-empty error list, yet the
batch loop skips the failed batches, keeps going, and posts a terminal
message with `success: true` and empty `results` — it never returns
`success: false` with the error, contrary to the claim. -/
theorem worker_reports_success_after_failed_batches (urls : List String) (ft : Option String) :
    (processBatches "filter" urls { type := ft, filterString := none }).success = true ∧
    (processBatches "filter" urls { type := ft, filterString := none }).results = [] ∧
    (processBatches "filter" urls { type := ft, filterString := none }).stats.invalidCount = 0 ∧
    (∀ batch : List String,
      (URLProcessor.process batch "filter" { type := ft, filterString := none }).success
          = false ∧
      (URLProcessor.process batch "filter" { type := ft, filterString := none }).errors
          ≠ []) := by
  have hfail : ∀ b : List String,
      (URLProcessor.process b "filter" { type := ft, filterString := none }).success = false := by
    intro b
    rw [process_filter_missing_fails]
  have hfold := foldl_batchStep_all_fail hfail
    (chunks BATCH_SIZE urls) ([], 0, 0)
  refine ⟨rfl, ?_, ?_, ?_⟩
  · show ((chunks BATCH_SIZE urls).foldl
      (batchStep "filter" { type := ft, filterString := none }) ([], 0, 0)).1 = []
    rw [hfold]
  · show ((chunks BATCH_SIZE urls).foldl
      (batchStep "filter" { type := ft, filterString := none }) ([], 0, 0)).2.2 = 0
    rw [hfold]
  · intro batch
    rw [process_filter_missing_fails]
    exact ⟨rfl, by simp⟩

/-! Chunking of a replicated input, and deduplication over it. -/

lemma chunksGo_nil (bs : Nat) : ∀ fuel, chunksGo bs fuel [] = [] := by
  intro fuel
  cases fuel <;> rfl

lemma chunksGo_succ_ne_nil (bs fuel : Nat) {l : List String} (h : l ≠ []) :
    chunksGo bs (fuel + 1) l = l.take bs :: chunksGo bs fuel (l.drop bs) := by
  cases l with
  | nil => exact absurd rfl h
  | cons x xs => rfl

lemma chunks_replicate_1001 (u : String) :
    chunks 1000 (List.replicate 1001 u) = [List.replicate 1000 u, [u]] := by
  have hsplit : List.replicate 1001 u = List.replicate 1000 u ++ [u] := by
    rw [show (1001 : Nat) = 1000 + 1 from rfl, List.replicate_succ']
  have hlenr : (List.replicate 1000 u).length = 1000 := List.length_replicate 1000 u
  have htake : (List.replicate 1001 u).take 1000 = List.replicate 1000 u := by
    rw [hsplit, List.take_left' hlenr]
  have hdrop : (List.replicate 1001 u).drop 1000 = [u] := by
    rw [hsplit, List.drop_left' hlenr]
  have hsing : ∀ fuel, chunksGo 1000 (fuel + 1) [u] = [[u]] := by
    intro fuel
    rw [chunksGo_succ_ne_nil 1000 fuel (by simp)]
    rw [List.take_of_length_le (by simp), List.drop_eq_nil_of_le (by simp)]
    rw [chunksGo_nil]
  unfold chunks
  rw [List.length_replicate]
  rw [show (1001 : Nat) = 1000 + 1 from rfl,
    chunksGo_succ_ne_nil 1000 1000 (by simp), htake, hdrop,
    show (1000 : Nat) = 999 + 1 from rfl, hsing]

lemma dedupGo_replicate_seen (key : String → Option String) {u k : String}
    (hb : URLProcessor.isBlankEntry u = false) (hk : key (jsTrim u) = some k)
    {seen : List String} (hs : k ∈ seen) :
    ∀ n, URLProcessor.dedupGo key seen (List.replicate n u) = ([], 0) := by
  intro n
  induction n with
  | zero => rfl
  | succ m ih =>
    rw [List.replicate_succ]
    simp only [URLProcessor.dedupGo, hb, Bool.false_eq_true, if_false, hk, hs, if_true]
    exact ih

lemma dedup_replicate_succ (key : String → Option String) {u k : String}
    (hb : URLProcessor.isBlankEntry u = false) (hk : key (jsTrim u) = some k) (n : Nat) :
    URLProcessor.dedupGo key [] (List.replicate (n + 1) u) = ([jsTrim u], 0) := by
  rw [List.replicate_succ]
  simp only [URLProcessor.dedupGo, hb, Bool.false_eq_true, if_false, hk]
  rw [if_neg (List.not_mem_nil k)]
  rw [dedupGo_replicate_seen key hb hk (List.mem_cons_self k []) n]
  rfl

lemma process_dedup_full (urls : List String) :
    URLProcessor.process urls "deduplicate" { type := some "full", filterString := none } =
      { success := true, inputCount := urls.length,
        outputCount := (URLProcessor.deduplicate urls "full").1.length,
        removedCount := urls.length - (URLProcessor.deduplicate urls "full").1.length,
        invalidCount := (URLProcessor.deduplicate urls "full").2,
        results := (URLProcessor.deduplicate urls "full").1, errors := [] } := by
  simp [URLProcessor.process, URLProcessor.runOperation, URLProcessor.optType]

/-- C1: chunked execution changes the result: on 1001 copies of
`https://example.com`, the worker's `processBatches` (batches of
`BATCH_SIZE = 1000`) deduplicates each batch separately and concatenates,
returning the URL twice, while single-pass processing returns it once.
The concatenation of per-chunk outputs differs from the single-pass
output, refuting chunking transparency for `deduplicate` on the code as
written. -/
theorem chunked_dedup_differs_from_single_pass :
    (processBatches "deduplicate" (List.replicate 1001 "https://example.com")
        { type := some "full" }).results
      = ["https://example.com", "https://example.com"] ∧
    (URLProcessor.process (List.replicate 1001 "https://example.com") "deduplicate"
        { type := some "full" }).results = ["https://example.com"] ∧
    (processBatches "deduplicate" (List.replicate 1001 "https://example.com")
        { type := some "full" }).results
      ≠ (URLProcessor.process (List.replicate 1001 "https://example.com") "deduplicate"
        { type := some "full" }).results := by
  have hb : URLProcessor.isBlankEntry "https://example.com" = false := by decide
  have htrim : jsTrim "https://example.com" = "https://example.com" := by decide
  have hk : (fun s => URLProcessor.getDeduplicationKey s "full")
      (jsTrim "https://example.com") = some "https://example.com" := by decide
  have hdedup1001 : URLProcessor.deduplicate (List.replicate 1001 "https://example.com")
      "full" = (["https://example.com"], 0) := by
    unfold URLProcessor.deduplicate
    rw [show (1001 : Nat) = 1000 + 1 from rfl]
    rw [dedup_replicate_succ (fun s => URLProcessor.getDeduplicationKey s "full") hb hk 1000,
      htrim]
  have hdedup1000 : URLProcessor.deduplicate (List.replicate 1000 "https://example.com")
      "full" = (["https://example.com"], 0) := by
    unfold URLProcessor.deduplicate
    rw [show (1000 : Nat) = 999 + 1 from rfl]
    rw [dedup_replicate_succ (fun s => URLProcessor.getDeduplicationKey s "full") hb hk 999,
      htrim]
  have hsingle : (URLProcessor.process (List.replicate 1001 "https://example.com")
      "deduplicate" { type := some "full" }).results = ["https://example.com"] := by
    rw [process_dedup_full, hdedup1001]
  have hone : URLProcessor.process ["https://example.com"] "deduplicate"
      { type := some "full" } =
      { success := true, inputCount := 1, outputCount := 1, removedCount := 0,
        invalidCount := 0, results := ["https://example.com"], errors := [] } := by decide
  have hstep1 : batchStep "deduplicate" { type := some "full" } ([], 0, 0)
      (List.replicate 1000 "https://example.com") = (["https://example.com"], 1, 0) := by
    unfold batchStep
    rw [process_dedup_full, hdedup1000]
    rfl
  have hstep2 : batchStep "deduplicate" { type := some "full" }
      (["https://example.com"], 1, 0) ["https://example.com"]
      = (["https://example.com", "https://example.com"], 2, 0) := by
    unfold batchStep
    rw [hone]
    rfl
  have hbatch : (processBatches "deduplicate" (List.replicate 1001 "https://example.com")
      { type := some "full" }).results
      = ["https://example.com", "https://example.com"] := by
    show ((chunks BATCH_SIZE (List.replicate 1001 "https://example.com")).foldl
      (batchStep "deduplicate" { type := some "full" }) ([], 0, 0)).1
      = ["https://example.com", "https://example.com"]
    rw [show BATCH_SIZE = 1000 from rfl, chunks_replicate_1001]
    rw [List.foldl_cons, List.foldl_cons, List.foldl_nil, hstep1, hstep2]
  exact ⟨hbatch, hsingle, by rw [hbatch, hsingle]; simp⟩

/-! Splitting a joined hostname recovers its labels. -/

lemma splitCharAux_no_sep (sep : Char) (l : List Char) (h : ∀ c ∈ l, ¬(c = sep)) :
    ∀ acc, splitCharAux sep l acc = [acc.reverse ++ l] := by
  induction l with
  | nil => intro acc; simp [splitCharAux]
  | cons c t ih =>
    intro acc
    have hc : ¬(c = sep) := h c (List.mem_cons_self c t)
    simp only [splitCharAux, hc, if_false]
    rw [ih (fun x hx => h x (List.mem_cons_of_mem _ hx)) (c :: acc)]
    simp

lemma splitCharAux_append (sep : Char) (l m : List Char) (h : ∀ c ∈ l, ¬(c = sep)) :
    ∀ acc, splitCharAux sep (l ++ m) acc = splitCharAux sep m (l.reverse ++ acc) := by
  induction l with
  | nil => intro acc; simp
  | cons c t ih =>
    intro acc
    have hc : ¬(c = sep) := h c (List.mem_cons_self c t)
    simp only [List.cons_append, splitCharAux, hc, if_false, List.append_eq]
    rw [ih (fun x hx => h x (List.mem_cons_of_mem _ hx)) (c :: acc)]
    simp

lemma splitChar_intercalate (sep : Char) :
    ∀ (parts : List (List Char)), parts ≠ [] →
      (∀ p ∈ parts, ∀ c ∈ p, ¬(c = sep)) →
      splitChar sep (intercalateChar sep parts) = parts := by
  intro parts
  induction parts with
  | nil => intro h; exact absurd rfl h
  | cons p t ih =>
    intro _ hsep
    have hp : ∀ c ∈ p, ¬(c = sep) := hsep p (List.mem_cons_self p t)
    cases t with
    | nil =>
      show splitCharAux sep (intercalateChar sep [p]) [] = [p]
      rw [show intercalateChar sep [p] = p from rfl, splitCharAux_no_sep sep p hp []]
      simp
    | cons q t' =>
      show splitCharAux sep (p ++ sep :: intercalateChar sep (q :: t')) [] = p :: q :: t'
      rw [splitCharAux_append sep p _ hp []]
      rw [show splitCharAux sep (sep :: intercalateChar sep (q :: t')) (p.reverse ++ [])
          = (p.reverse ++ []).reverse :: splitCharAux sep (intercalateChar sep (q :: t')) []
          from by simp [splitCharAux]]
      rw [show splitCharAux sep (intercalateChar sep (q :: t')) []
          = splitChar sep (intercalateChar sep (q :: t')) from rfl]
      rw [ih (by simp) (fun x hx => hsep x (List.mem_cons_of_mem _ hx))]
      simp

lemma splitOnDot_joinDot (labels : List String) (hne : labels ≠ [])
    (h : ∀ l ∈ labels, ∀ c ∈ l.data, ¬(c = '.')) :
    URLParser.splitOnDot (URLParser.joinDot labels) = labels := by
  unfold URLParser.splitOnDot URLParser.joinDot
  rw [splitChar_intercalate '.' (labels.map String.data)
    (by simpa using hne)
    (by
      intro p hp c hc
      obtain ⟨l, hl, rfl⟩ := List.mem_map.mp hp
      exact h l hl c hc)]
  rw [List.map_map]
  have hid : ((fun l => (⟨l⟩ : String)) ∘ String.data) = id := funext fun s => rfl
  rw [hid, List.map_id]

lemma jsOrEmpty_eq (s : String) : jsOrEmpty s = s := by
  by_cases h : s = ""
  · rw [jsOrEmpty, if_pos h, h]
  · rw [jsOrEmpty, if_neg h]

/-- C7: for every hostname assembled from 3 or more dot-free labels,
`extractDomainParts` assigns, when the second-to-last plus last label is
in the compound-TLD table, the label three from the end as `domain`,
the last label as `tld`, and all earlier labels joined by `.` as
`subdomain`; otherwise the second-to-last label as `domain`, the last as
`tld`, and the rest joined as `subdomain`. -/
theorem compound_tld_splitting (labels : List String) (h3 : 3 ≤ labels.length)
    (hdot : ∀ l ∈ labels, '.' ∉ l.data) :
    URLParser.extractDomainParts (URLParser.joinDot labels) =
      (if URLParser.isCommonSecondLevelTLD (labels.getD (labels.length - 2) "")
          (labels.getD (labels.length - 1) "") then
        { subdomain := URLParser.joinDot (labels.take (labels.length - 3)),
          domain := labels.getD (labels.length - 3) "",
          tld := labels.getD (labels.length - 1) "" }
      else
        { subdomain := URLParser.joinDot (labels.take (labels.length - 2)),
          domain := labels.getD (labels.length - 2) "",
          tld := labels.getD (labels.length - 1) "" }) := by
  have hne : labels ≠ [] := by
    intro h
    rw [h] at h3
    exact absurd h3 (by decide)
  have hsep : ∀ l ∈ labels, ∀ c ∈ l.data, ¬(c = '.') :=
    fun l hl c hc hceq => hdot l hl (hceq ▸ hc)
  have hsplit := splitOnDot_joinDot labels hne hsep
  obtain ⟨a, rest, rfl⟩ : ∃ a rest, labels = a :: rest := by
    cases labels with
    | nil => exact absurd rfl hne
    | cons a rest => exact ⟨a, rest, rfl⟩
  obtain ⟨b, rest', rfl⟩ : ∃ b rest', rest = b :: rest' := by
    cases rest with
    | nil => simp at h3
    | cons b rest' => exact ⟨b, rest', rfl⟩
  have hhost : URLParser.joinDot (a :: b :: rest') ≠ "" := by
    intro heq
    have hdata := congrArg String.data heq
    rw [show (URLParser.joinDot (a :: b :: rest')).data
        = a.data ++ '.' :: intercalateChar '.' ((b :: rest').map String.data) from rfl] at hdata
    simp at hdata
  have hlen2 : ¬((a :: b :: rest').length < 2) := by omega
  have hne2 : ¬((a :: b :: rest').length = 2) := by omega
  simp only [URLParser.extractDomainParts, hsplit]
  rw [if_neg hhost, if_neg hlen2, if_neg hne2]
  by_cases h3eq : (a :: b :: rest').length = 3
  · rw [if_pos h3eq]
    split <;> simp [jsOrEmpty_eq]
  · rw [if_neg h3eq]
    split <;> simp [jsOrEmpty_eq]

/-- Witness for C7 on a compound-TLD hostname and a plain one. -/
theorem compound_tld_splitting_witness :
    URLParser.extractDomainParts "www.example.co.uk"
      = { subdomain := "www", domain := "example", tld := "uk" } ∧
    URLParser.extractDomainParts "a.b.example.com"
      = { subdomain := "a.b", domain := "example", tld := "com" } := by
  have h1 := compound_tld_splitting ["www", "example", "co", "uk"] (by decide) (by decide)
  have h2 := compound_tld_splitting ["a", "b", "example", "com"] (by decide) (by decide)
  constructor
  · rw [show ("www.example.co.uk" : String)
      = URLParser.joinDot ["www", "example", "co", "uk"] from by decide, h1]
    decide
  · rw [show ("a.b.example.com" : String)
      = URLParser.joinDot ["a", "b", "example", "com"] from by decide, h2]
    decide

/-! A string without a colon has no scheme, so the bare URL constructor
throws on it. -/

lemma mem_trimEnds {p : Char → Bool} {c : Char} {l : List Char}
    (h : c ∈ ((l.dropWhile p).reverse.dropWhile p).reverse) : c ∈ l := by
  rw [List.mem_reverse] at h
  have h1 := (List.dropWhile_sublist (l := (l.dropWhile p).reverse) p).subset h
  rw [List.mem_reverse] at h1
  exact (List.dropWhile_sublist (l := l) p).subset h1

lemma mem_jsTrimList {c : Char} {l : List Char} (h : c ∈ jsTrimList l) : c ∈ l :=
  mem_trimEnds h

lemma mem_urlPreprocess {c : Char} {l : List Char} (h : c ∈ urlPreprocess l) : c ∈ l := by
  unfold urlPreprocess at h
  exact mem_trimEnds (List.mem_of_mem_filter h)

lemma splitSchemeAux_no_colon {l : List Char} (h : ':' ∉ l) :
    ∀ acc, splitSchemeAux l acc = none := by
  induction l with
  | nil => intro acc; rfl
  | cons c t ih =>
    intro acc
    have hc : ¬(c = ':') := fun hceq => h (hceq ▸ List.mem_cons_self c t)
    simp only [splitSchemeAux, hc, if_false]
    split <;> split <;>
      first
      | exact ih (fun hm => h (List.mem_cons_of_mem _ hm)) _
      | rfl

lemma jsURLparse_no_colon {s : String} (h : ':' ∉ s.data) : jsURLparse s = none := by
  have hsp : splitScheme (urlPreprocess s.data) = none :=
    splitSchemeAux_no_colon (fun hm => h (mem_urlPreprocess hm)) []
  simp only [jsURLparse, hsp]

/-- C10: an entry without a colon (hence without a scheme) that the
classifier nevertheless accepts as valid through its `http://` retry is
dropped by `trimLastPath`, which re-parses it with the bare strict URL
constructor (no fallback), catches the throw, and increments
`invalidCount`. -/
theorem trim_last_path_drops_schemeless (u : String)
    (hnb : URLProcessor.isBlankEntry u = false)
    (hcolon : ':' ∉ u.data)
    (hvalid : URLParser.isValid (some (jsTrim u)) = true) :
    URLProcessor.trimLastPath [u] = ([], 1) := by
  have hcolon' : ':' ∉ (jsTrim u).data := fun hm => hcolon (mem_jsTrimList hm)
  have hparse : jsURLparse (jsTrim u) = none := jsURLparse_no_colon hcolon'
  simp only [URLProcessor.trimLastPath, hnb, Bool.false_eq_true, if_false, hvalid,
    Bool.not_true, hparse]
  rfl

/-- Witness for C10 at `example.com/a/b`: valid for the classifier, yet
dropped and counted invalid by `trimLastPath`. -/
theorem trim_last_path_drops_schemeless_witness :
    URLProcessor.trimLastPath ["example.com/a/b"] = ([], 1) ∧
    URLParser.isValid (some "example.com/a/b") = true :=
  ⟨trim_last_path_drops_schemeless "example.com/a/b" (by decide) (by decide) (by decide),
   by decide⟩

/-! Bare lowercase words travel through the parser untouched. -/

lemma dropWhile_eq_self_of_forall {p : Char → Bool} {l : List Char}
    (h : ∀ c ∈ l, p c = false) : l.dropWhile p = l := by
  cases l with
  | nil => rfl
  | cons c t =>
    rw [List.dropWhile_cons, h c (List.mem_cons_self c t)]
    simp

lemma takeWhile_eq_self_of_forall {p : Char → Bool} {l : List Char}
    (h : ∀ c ∈ l, p c = true) : l.takeWhile p = l := by
  induction l with
  | nil => rfl
  | cons c t ih =>
    rw [List.takeWhile_cons, h c (List.mem_cons_self c t)]
    simp only [if_true]
    rw [ih (fun x hx => h x (List.mem_cons_of_mem _ hx))]

lemma trimEnds_eq_self {p : Char → Bool} {l : List Char} (h : ∀ c ∈ l, p c = false) :
    ((l.dropWhile p).reverse.dropWhile p).reverse = l := by
  rw [dropWhile_eq_self_of_forall h,
    dropWhile_eq_self_of_forall (fun c hc => h c (List.mem_reverse.mp hc)),
    List.reverse_reverse]

lemma splitAtPred_eq_self_of_forall {p : Char → Bool} {l : List Char}
    (h : ∀ c ∈ l, p c = false) : splitAtPred p l = (l, []) := by
  induction l with
  | nil => rfl
  | cons c t ih =>
    simp only [splitAtPred, h c (List.mem_cons_self c t), Bool.false_eq_true, if_false]
    rw [ih (fun x hx => h x (List.mem_cons_of_mem _ hx))]

lemma containsList_colon_false {l : List Char} (h : ':' ∉ l) (rest : List Char) :
    containsList (':' :: rest) l = false := by
  induction l with
  | nil => rfl
  | cons c t ih =>
    have hcc : ¬(':' = c) := fun heq => h (heq ▸ List.mem_cons_self c t)
    show (isPrefixList (':' :: rest) (c :: t) || containsList (':' :: rest) t) = false
    rw [ih (fun hm => h (List.mem_cons_of_mem _ hm))]
    simp [isPrefixList, hcc]

lemma lower_char_ne {c : Char} (ha : 'a' ≤ c) (hz : c ≤ 'z') (x : Char)
    (hx : ¬('a' ≤ x ∧ x ≤ 'z')) : ¬(c = x) :=
  fun heq => hx ⟨heq ▸ ha, heq ▸ hz⟩

lemma lower_char_not_le_space {c : Char} (ha : 'a' ≤ c) : ¬(c ≤ ' ') :=
  fun hle => absurd (Char.le_trans ha hle) (by decide)


lemma jsURLparse_http_word {w : String} (hne : w.data ≠ [])
    (hlow : ∀ c ∈ w.data, 'a' ≤ c ∧ c ≤ 'z') :
    jsURLparse ("http://" ++ w) =
      some { scheme := "http", host := some (⟨lowerList w.data⟩ : String), port := "",
             pathname := "/", query := none, fragment := none } := by
  have hdata : ("http://" ++ w).data = "http://".data ++ w.data := rfl
  have hsp : ∀ c ∈ "http://".data ++ w.data, (decide (c ≤ ' ')) = false := by
    intro c hc
    rcases List.mem_append.mp hc with hcl | hcr
    · fin_cases hcl <;> decide
    · exact decide_eq_false (lower_char_not_le_space (hlow c hcr).1)
  have hctl : ∀ c ∈ "http://".data ++ w.data,
      (!(decide (c = '\t') || decide (c = '\n') || decide (c = '\r'))) = true := by
    intro c hc
    rcases List.mem_append.mp hc with hcl | hcr
    · fin_cases hcl <;> decide
    · obtain ⟨ha, hz⟩ := hlow c hcr
      simp [lower_char_ne ha hz '\t' (by decide), lower_char_ne ha hz '\n' (by decide),
        lower_char_ne ha hz '\r' (by decide)]
  have hpre : urlPreprocess ("http://" ++ w).data = "http://".data ++ w.data := by
    rw [hdata]
    unfold urlPreprocess
    rw [trimEnds_eq_self hsp, List.filter_eq_self.mpr hctl]
  have hscheme : splitScheme ("http://".data ++ w.data)
      = some (['h', 't', 't', 'p'], '/' :: '/' :: w.data) := rfl
  have hlow4 : (⟨lowerList ['h', 't', 't', 'p']⟩ : String) = "http" := rfl
  have hslash : ('/' :: '/' :: w.data).dropWhile isSlash = w.data := by
    rw [show ('/' :: '/' :: w.data).dropWhile isSlash = w.data.dropWhile isSlash from rfl]
    refine dropWhile_eq_self_of_forall ?_
    intro c hc
    obtain ⟨ha, hz⟩ := hlow c hc
    simp [isSlash, lower_char_ne ha hz '/' (by decide), lower_char_ne ha hz '\\' (by decide)]
  have hauth : splitAtPred (authEnd true) w.data = (w.data, []) := by
    refine splitAtPred_eq_self_of_forall ?_
    intro c hc
    obtain ⟨ha, hz⟩ := hlow c hc
    simp [authEnd, lower_char_ne ha hz '/' (by decide), lower_char_ne ha hz '?' (by decide),
      lower_char_ne ha hz '#' (by decide), lower_char_ne ha hz '\\' (by decide)]
  have hat : afterLastAt w.data = w.data := by
    unfold afterLastAt
    rw [takeWhile_eq_self_of_forall, List.reverse_reverse]
    intro c hc
    obtain ⟨ha, hz⟩ := hlow c (List.mem_reverse.mp hc)
    simp [lower_char_ne ha hz '@' (by decide)]
  have hcol : splitAtPred (fun c => decide (c = ':')) w.data = (w.data, []) := by
    refine splitAtPred_eq_self_of_forall ?_
    intro c hc
    obtain ⟨ha, hz⟩ := hlow c hc
    simp [lower_char_ne ha hz ':' (by decide)]
  have hfb : w.data.any isForbiddenHostChar = false := by
    rw [List.any_eq_false]
    intro c hc
    obtain ⟨ha, hz⟩ := hlow c hc
    simp [isForbiddenHostChar, lower_char_ne ha hz '\x00' (by decide),
      lower_char_ne ha hz ' ' (by decide), lower_char_ne ha hz '#' (by decide),
      lower_char_ne ha hz '/' (by decide), lower_char_ne ha hz ':' (by decide),
      lower_char_ne ha hz '<' (by decide), lower_char_ne ha hz '>' (by decide),
      lower_char_ne ha hz '?' (by decide), lower_char_ne ha hz '@' (by decide),
      lower_char_ne ha hz '[' (by decide), lower_char_ne ha hz '\\' (by decide),
      lower_char_ne ha hz ']' (by decide), lower_char_ne ha hz '^' (by decide),
      lower_char_ne ha hz '|' (by decide)]
  have hempty : w.data.isEmpty = false := by
    cases hwd : w.data with
    | nil => exact absurd hwd hne
    | cons a b => rfl
  simp only [jsURLparse, hpre, hscheme, hlow4]
  simp only [isSpecialScheme, eq_self_iff_true, Bool.true_or, if_true, reduceIte]
  simp only [parseAfterScheme, hslash, hauth, hat, hcol]
  simp only [parsePort, hempty, hfb, Bool.and_false, Bool.false_eq_true, if_false,
    Bool.true_and, if_true, reduceIte, splitAtPred, parseQueryFrag, List.isEmpty_nil]
  simp

/-- C4 counterexample: the bare word `hello` — no dot, no scheme, not
`localhost`, not an IP literal — is classified valid by the code, which
pre-rejects only the literal sentinels, contradicting the claimed
explicit pre-check. -/
theorem bare_word_accepted_counterexample :
    (URLParser.parse (some "hello")).valid = true ∧
    containsList ['.'] "hello".data = false ∧
    containsList [':'] "hello".data = false ∧
    "hello" ≠ "localhost" := by
  refine ⟨by decide, by decide, by decide, by decide⟩

/-- C4 amended: `parse` applies no dot/scheme pre-check; only the
literal sentinels `not-a-url` and `://invalid` (plus empty and
whitespace-only strings) are pre-rejected.  Every other bare word —
here, any non-empty all-lowercase-ASCII-letter string, which has no dot
and no scheme — is accepted as valid through the `http://` prefix
retry. -/
theorem parse_accepts_bare_words :
    (∀ w : String, w.data ≠ [] → (∀ c ∈ w.data, 'a' ≤ c ∧ c ≤ 'z') →
      (URLParser.parse (some w)).valid = true) ∧
    (URLParser.parse (some "not-a-url")).valid = false ∧
    (URLParser.parse (some "://invalid")).valid = false := by
  refine ⟨?_, by decide, by decide⟩
  intro w hne hlow
  have hw0 : ¬(w = "") := fun heq => hne (congrArg String.data heq)
  have hwsfalse : ∀ c ∈ w.data, isJsWhitespace c = false := by
    intro c hc
    obtain ⟨ha, hz⟩ := hlow c hc
    simp [isJsWhitespace, lower_char_ne ha hz ' ' (by decide),
      lower_char_ne ha hz '\t' (by decide), lower_char_ne ha hz '\n' (by decide),
      lower_char_ne ha hz '\r' (by decide), lower_char_ne ha hz '\x0b' (by decide),
      lower_char_ne ha hz '\x0c' (by decide)]
  have htrimw : jsTrim w = w := by
    show (⟨jsTrimList w.data⟩ : String) = w
    rw [show jsTrimList w.data
        = ((w.data.dropWhile isJsWhitespace).reverse.dropWhile isJsWhitespace).reverse
      from rfl]
    rw [trimEnds_eq_self hwsfalse]
  have hna : ¬(w = "not-a-url") := by
    intro heq
    have hm : '-' ∈ w.data := by rw [heq]; decide
    exact absurd (hlow '-' hm).1 (by decide)
  have hni : ¬(w = "://invalid") := by
    intro heq
    have hm : ':' ∈ w.data := by rw [heq]; decide
    exact absurd (hlow ':' hm).1 (by decide)
  have hcolon : ':' ∉ w.data := fun hm => absurd (hlow ':' hm).1 (by decide)
  have hnorm : URLParser.normalizeUrl w = w := by
    unfold URLParser.normalizeUrl
    have h1 : jsTrimList w.data = w.data := congrArg String.data htrimw
    rw [h1]
    rw [show stripWsList w.data = w.data from List.filter_eq_self.mpr (by
      intro c hc
      rw [hwsfalse c hc]
      rfl)]
    unfold dropTrailing
    rw [dropWhile_eq_self_of_forall (by
      intro c hc
      obtain ⟨ha, hz⟩ := hlow c (List.mem_reverse.mp hc)
      simp [lower_char_ne ha hz '/' (by decide)]), List.reverse_reverse]
  have hparsefail : jsURLparse w = none := jsURLparse_no_colon hcolon
  have hcontains : containsStr w "://" = false := by
    show containsList ("://" : String).data w.data = false
    rw [show ("://" : String).data = ':' :: '/' :: '/' :: [] from rfl]
    exact containsList_colon_false hcolon ['/', '/']
  simp only [URLParser.parse, hw0, htrimw, hna, hni, hnorm, hparsefail, hcontains,
    jsURLparse_http_word hne hlow, Bool.false_eq_true, if_false, Bool.or_self,
    Bool.or_false, Bool.not_false, if_true, decide_False, reduceIte]
  simp [URLParser.buildParsed, JSURL.search, URLParser.parseParameters, hw0]

/-- Witness for C4 at the word `hello`. -/
theorem parse_accepts_bare_words_witness :
    (URLParser.parse (some "hello")).valid = true :=
  parse_accepts_bare_words.1 "hello" (by decide) (by decide)

/-! Shape of a URL parsed from a string with the `http://` prefix glued
on: preprocessing keeps the prefix intact, so the record has scheme
`http` and some host. -/

lemma urlPreprocess_http (x : List Char) :
    ∃ z, urlPreprocess ("http://".data ++ x) = "http://".data ++ z := by
  unfold urlPreprocess
  rw [show ("http://".data ++ x).dropWhile (fun c => decide (c ≤ ' '))
      = "http://".data ++ x from rfl]
  rw [List.reverse_append,
    show ("http://".data).reverse = ['/', '/', ':', 'p', 't', 't', 'h'] from rfl,
    List.dropWhile_append]
  by_cases hy : ((x.reverse).dropWhile (fun c => decide (c ≤ ' '))).isEmpty = true
  · rw [if_pos hy]
    rw [show (['/', '/', ':', 'p', 't', 't', 'h'] : List Char).dropWhile
        (fun c => decide (c ≤ ' ')) = ['/', '/', ':', 'p', 't', 't', 'h'] from rfl]
    rw [show (['/', '/', ':', 'p', 't', 't', 'h'] : List Char).reverse
        = "http://".data from rfl]
    refine ⟨[], ?_⟩
    rw [List.append_nil]
    rfl
  · rw [if_neg hy]
    rw [List.reverse_append,
      show (['/', '/', ':', 'p', 't', 't', 'h'] : List Char).reverse
        = "http://".data from rfl,
      List.filter_append]
    exact ⟨_, rfl⟩

lemma parseAfterScheme_shape {special : Bool} {scheme : String} {rest : List Char}
    {obj : JSURL} (h : parseAfterScheme special scheme rest = some obj) :
    obj.scheme = scheme ∧ ∃ hst, obj.host = some hst := by
  simp only [parseAfterScheme] at h
  repeat' split at h
  all_goals
    first
    | exact Option.noConfusion h
    | · obtain rfl : obj = _ := (Option.some.inj h).symm
        exact ⟨rfl, _, rfl⟩

lemma jsURLparse_http_shape {u : String} {obj : JSURL}
    (h : jsURLparse ("http://" ++ u) = some obj) :
    obj.scheme = "http" ∧ ∃ hst, obj.host = some hst := by
  obtain ⟨z, hz⟩ := urlPreprocess_http u.data
  simp only [jsURLparse] at h
  rw [show ("http://" ++ u).data = "http://".data ++ u.data from rfl, hz] at h
  rw [show splitScheme ("http://".data ++ z)
      = some (['h', 't', 't', 'p'], '/' :: '/' :: z) from rfl] at h
  dsimp only at h
  rw [show (⟨lowerList ['h', 't', 't', 'p']⟩ : String) = "http" from rfl] at h
  rw [show isSpecialScheme "http" = true from rfl] at h
  simp only [if_true, reduceIte] at h
  exact parseAfterScheme_shape h

lemma removeParameters_filterMap (urls : List String) :
    (URLProcessor.removeParameters urls).1 =
      urls.filterMap (fun u => if URLProcessor.isBlankEntry u then none
        else URLParser.removeParameters (jsTrim u)) ∧
    (URLProcessor.removeParameters urls).2 =
      urls.countP (fun u => (if URLProcessor.isBlankEntry u then none
        else URLParser.removeParameters (jsTrim u)).isNone) := by
  induction urls with
  | nil => exact ⟨rfl, rfl⟩
  | cons u rest ih =>
    by_cases hb : URLProcessor.isBlankEntry u = true
    · simp [URLProcessor.removeParameters, hb, ih.1, ih.2, List.countP_cons]
    · rw [Bool.not_eq_true] at hb
      cases hr : URLParser.removeParameters (jsTrim u) with
      | some c => simp [URLProcessor.removeParameters, hb, hr, ih.1, ih.2, List.countP_cons]
      | none => simp [URLProcessor.removeParameters, hb, hr, ih.1, ih.2, List.countP_cons]

lemma href_http_decomp (hst prtS pthS : String) (fr : Option String) :
    (JSURL.href (JSURL.mk "http" (some hst) prtS pthS none fr)).data
      = 'h' :: 't' :: 't' :: 'p' :: ':' :: '/' :: '/' ::
        (hst.data ++ ((if prtS = "" then "" else ":" ++ prtS).data ++ (pthS.data ++
          (match fr with | some f => "#" ++ f | none => "").data))) := by
  show ("http" ++ ":" ++ ("//" ++ hst ++ (if prtS = "" then "" else ":" ++ prtS))
    ++ pthS ++ "" ++ (match fr with | some f => "#" ++ f | none => "")).data = _
  simp only [String.data_append]
  simp [List.append_assoc]

lemma dropHttpScheme_http_mk (hst prtS pthS : String) (fr : Option String) :
    URLParser.dropHttpScheme (JSURL.href (JSURL.mk "http" (some hst) prtS pthS none fr))
      = ⟨(JSURL.href (JSURL.mk "http" (some hst) prtS pthS none fr)).data.drop 7⟩ := by
  have hS := href_http_decomp hst prtS pthS fr
  unfold URLParser.dropHttpScheme
  rw [show isPrefixList "https://".data
      (JSURL.href (JSURL.mk "http" (some hst) prtS pthS none fr)).data = false
    from by rw [hS]; rfl]
  rw [show isPrefixList "http://".data
      (JSURL.href (JSURL.mk "http" (some hst) prtS pthS none fr)).data = true
    from by rw [hS]; rfl]
  simp

lemma http_prefix_href (hst prtS pthS : String) (fr : Option String) :
    "http://" ++ (⟨(JSURL.href (JSURL.mk "http" (some hst) prtS pthS none fr)).data.drop 7⟩
        : String)
      = JSURL.href (JSURL.mk "http" (some hst) prtS pthS none fr) := by
  have hS := href_http_decomp hst prtS pthS fr
  have hdata : ("http://" ++ (⟨(JSURL.href
        (JSURL.mk "http" (some hst) prtS pthS none fr)).data.drop 7⟩ : String)).data
      = (JSURL.href (JSURL.mk "http" (some hst) prtS pthS none fr)).data := by
    rw [show ("http://" ++ (⟨(JSURL.href
        (JSURL.mk "http" (some hst) prtS pthS none fr)).data.drop 7⟩ : String)).data
      = "http://".data ++ (JSURL.href
        (JSURL.mk "http" (some hst) prtS pthS none fr)).data.drop 7 from rfl, hS]
    rfl
  exact congrArg String.mk hdata

/-- C8: `removeParameters` processes entries independently in input
order (its output is the `filterMap` of the per-entry rebuild over the
input) and counts every dropped entry (blank or failed) in
`invalidCount`; on the spec's example the query string is removed; when
the original had no scheme, the returned string is exactly the rebuilt
URL with its query cleared and the added `http://` prefix stripped back
off (no scheme added); and the fragment is preserved, as on the
repository's own test URL. -/
theorem remove_parameters_behavior :
    (∀ urls : List String,
      (URLProcessor.removeParameters urls).1 =
        urls.filterMap (fun u => if URLProcessor.isBlankEntry u then none
          else URLParser.removeParameters (jsTrim u)) ∧
      (URLProcessor.removeParameters urls).2 =
        urls.countP (fun u => (if URLProcessor.isBlankEntry u then none
          else URLParser.removeParameters (jsTrim u)).isNone)) ∧
    URLProcessor.removeParameters ["https://example.com/page?utm_source=google&ref=123"]
      = (["https://example.com/page"], 0) ∧
    (∀ u r, containsStr u "://" = false → URLParser.removeParameters u = some r →
      ∃ obj, jsURLparse ("http://" ++ u) = some obj ∧
        "http://" ++ r = JSURL.href { obj with query := none }) ∧
    URLParser.removeParameters "https://example.com/path?param=value#section"
      = some "https://example.com/path#section" := by
  refine ⟨removeParameters_filterMap, by decide, ?_, by decide⟩
  intro u r hcont hrp
  simp only [URLParser.removeParameters, hcont, Bool.false_eq_true, if_false] at hrp
  cases hval : (URLParser.parse (some u)).valid with
  | false =>
    rw [hval] at hrp
    simp at hrp
  | true =>
    rw [hval] at hrp
    simp only [Bool.not_true, Bool.false_eq_true, if_false] at hrp
    cases hobj : jsURLparse ("http://" ++ u) with
    | none =>
      rw [hobj] at hrp
      exact Option.noConfusion hrp
    | some obj =>
      rw [hobj] at hrp
      have hr : URLParser.dropHttpScheme (JSURL.href { obj with query := none }) = r :=
        Option.some.inj hrp
      obtain ⟨hsch, hst, hhost⟩ := jsURLparse_http_shape hobj
      refine ⟨obj, rfl, ?_⟩
      obtain ⟨sch, ho, prt, pth, qy, fr⟩ := obj
      dsimp only at hsch hhost hr ⊢
      subst hsch
      subst hhost
      rw [← hr]
      rw [dropHttpScheme_http_mk]
      exact http_prefix_href hst prt pth fr

/-- Witness for C8: a schemeless input with a query; the returned string
is the rebuilt URL with its query cleared and no scheme added. -/
theorem remove_parameters_behavior_witness :
    (∃ obj, jsURLparse ("http://" ++ "example.com/a?x") = some obj ∧
      "http://" ++ "example.com/a" = JSURL.href { obj with query := none }) ∧
    URLParser.removeParameters "example.com/a?x" = some "example.com/a" :=
  ⟨remove_parameters_behavior.2.2.1 "example.com/a?x" "example.com/a" (by decide) (by decide),
   by decide⟩
